import Mathlib

/-!
Verification of the CookieControl permission-state core.

This file gives a shallow embedding of the repository's base-domain
resolver (`getBaseDomain` in `src/utils/cookieUtils.js`, also shipped in
`dist/chromium/src/utils/dom.js`), of the permission-button configuration
builder (`buildPermissionButtonConfig` in `src/utils/permissionsUi.js`,
bundled in `src/utils/cookiePartition.js`), and of the revoke-list
computation of the helper-based popup (`updatePermissionUI`).

JavaScript strings are embedded as `List Char`; `String.split('.')`,
`Array.join('.')`, `String.startsWith`, `String.endsWith` and
`Array.includes` are embedded by the list operations defined below, each
faithful to the JavaScript semantics (in particular `split` keeps empty
fragments, and `''.split('.')` is `['']`).

The permission-state engine proper (`computePermissionState`,
`buildPatterns`, `isBaseHost` from `src/utils/permissionHelpers.js`) is
imported by the helper-based popup and exercised by the repository's test
file, but the module itself is not present in the source tree; it is
modelled from the specification (§4.2) below, with each such definition
marked `Modelled from the spec:`.
-/

/-- Embedding of a JavaScript string as a list of characters. -/
abbrev JsStr := List Char

/-- Coercion from a Lean string literal to the embedding type. -/
def js (s : String) : JsStr := s.data

/-- Embedding of JavaScript `s.split('.')`: cuts at every `'.'` and keeps
empty fragments, so `''.split('.') = ['']` and `'a..b'.split('.') =
['a', '', 'b']`. -/
def splitOnDot : JsStr → List JsStr
  | [] => [[]]
  | c :: rest =>
    if c = '.' then [] :: splitOnDot rest
    else (c :: (splitOnDot rest).headD []) :: (splitOnDot rest).tail

/-- Embedding of JavaScript `parts.join('.')`. -/
def joinDots : List JsStr → JsStr
  | [] => []
  | [p] => p
  | p :: ps => p ++ '.' :: joinDots ps

/-- Embedding of JavaScript `xs.slice(-n)` for `n ≤ xs.length`: the last
`n` elements. -/
def lastN (n : Nat) (xs : List JsStr) : List JsStr := xs.drop (xs.length - n)

/-- The leading-dot strip performed by `getBaseDomain`
(`hostname.startsWith('.') ? hostname.slice(1) : hostname`). -/
def cleanHost (hostname : JsStr) : JsStr :=
  if hostname.head? = some '.' then hostname.tail else hostname

/-- The labels `getBaseDomain` computes: `cleanHostname.split('.')`. -/
def labelsOf (hostname : JsStr) : List JsStr := splitOnDot (cleanHost hostname)

/-- The `commonTlds` constant of `getBaseDomain`
(`['co', 'com', 'net', 'org', 'gov', 'edu']`). -/
def commonTlds : List JsStr :=
  [js "co", js "com", js "net", js "org", js "gov", js "edu"]

/-- Embedding of `getBaseDomain` from `src/utils/cookieUtils.js` (lines
90–107; the copy in `dist/chromium/src/utils/dom.js` lines 63–80 is
identical): strip one leading dot, split on `'.'`, return the cleaned
hostname when there are at most two parts, otherwise the last three parts
when the second-to-last part is a common multi-part TLD label and the
last two parts otherwise. -/
def getBaseDomain (hostname : JsStr) : JsStr :=
  if hostname = [] then []
  else
    if (labelsOf hostname).length ≤ 2 then cleanHost hostname
    else
      if 2 < (labelsOf hostname).length ∧
          (labelsOf hostname).getD ((labelsOf hostname).length - 2) [] ∈ commonTlds then
        joinDots (lastN 3 (labelsOf hostname))
      else
        joinDots (lastN 2 (labelsOf hostname))

/-- Table of multi-label public suffixes as enumerated by the
specification (§4.1 step 4 lists the pairs `co.uk`, `ac.uk`, `gov.uk`,
`co.jp`, `com.au`, `net.au`, `com.br`, `com.cn`, `co.nz`, `com.mx`,
`com.tr` as a closed enumeration). Written from the spec's words, to be
compared with the condition the source actually checks. -/
def specMultiLabelSuffixTable : List JsStr :=
  [js "co.uk", js "ac.uk", js "gov.uk", js "co.jp", js "com.au", js "net.au",
   js "com.br", js "com.cn", js "co.nz", js "com.mx", js "com.tr"]

/-- The `<all_urls>` sentinel origin pattern. -/
def allUrls : JsStr := js "<all_urls>"

/-- The exact-host origin pattern `*://<hostname>/*`. -/
def hostPatternOf (hostname : JsStr) : JsStr := js "*://" ++ hostname ++ js "/*"

/-- The base-only origin pattern `*://<baseDomain>/*`. -/
def basePatternOf (baseDomain : JsStr) : JsStr := js "*://" ++ baseDomain ++ js "/*"

/-- The wildcard-subdomain origin pattern `*://*.<baseDomain>/*`. -/
def wildcardPatternOf (baseDomain : JsStr) : JsStr :=
  js "*://*." ++ baseDomain ++ js "/*"

/-- Modelled from the spec: the five-valued effective access tier of the
permission-state engine (§3, §4.2 step 5); the engine itself
(`computePermissionState` in `src/utils/permissionHelpers.js`) is imported
by the helper-based popup and exercised by the repository's tests but the
module is absent from the source tree. -/
inductive Tier
  | global
  | wildcard
  | pair
  | baseOnly
  | none
deriving DecidableEq, Repr

/-- Modelled from the spec: the record returned by `buildPatterns`
(§4.2 Contract A, `src/utils/permissionHelpers.js`, absent from the
source tree); a `null` pattern is `Option.none`. -/
structure Patterns where
  host : Option JsStr
  baseOnly : Option JsStr
  wildcard : Option JsStr
deriving DecidableEq, Repr

/-- Modelled from the spec: `buildPatterns` (§4.2 Contract A) from
`src/utils/permissionHelpers.js`, absent from the source tree. If
`baseDomain` is falsy all three outputs are null; `host` is null if
`hostname` is falsy, otherwise `*://<hostname>/*`; `baseOnly` and
`wildcard` are always present when `baseDomain` is. -/
def buildPatterns (hostname baseDomain : JsStr) : Patterns :=
  if baseDomain = [] then ⟨Option.none, Option.none, Option.none⟩
  else
    { host := if hostname = [] then Option.none else some (hostPatternOf hostname)
      baseOnly := some (basePatternOf baseDomain)
      wildcard := some (wildcardPatternOf baseDomain) }

/-- Modelled from the spec: `isBaseHost` (§4.2 Contract B) from
`src/utils/permissionHelpers.js`, absent from the source tree. True iff
the hostname equals the base domain or `www.` plus the base domain; both
inputs falsy gives false. -/
def isBaseHost (hostname baseDomain : JsStr) : Bool :=
  if hostname = [] ∧ baseDomain = [] then false
  else decide (hostname = baseDomain ∨ hostname = js "www." ++ baseDomain)

/-- Modelled from the spec: the permission-state record (§3) produced by
`computePermissionState`. -/
structure PermissionState where
  isBaseDomain : Bool
  hasGlobal : Bool
  hasWildcard : Bool
  hasBaseOnly : Bool
  hasHost : Bool
  effective : Tier
  grantMissing : List JsStr
  revokeTarget : Option JsStr
deriving DecidableEq, Repr

/-- Membership test of an optional pattern against the granted snapshot
(spec §4.2 step 4: each null pattern is treated as absent). -/
def hasPattern (granted : List JsStr) : Option JsStr → Bool
  | some p => granted.contains p
  | Option.none => false

/-- Modelled from the spec: `computePermissionState` (§4.2 Contract C)
from `src/utils/permissionHelpers.js`, absent from the source tree. The
granted-origins snapshot is received as a list used only through
membership tests; `effective` is resolved by strict precedence,
`grantMissing` is computed only when `effective` is `none` (host pattern
listed first on the subdomain view), and `revokeTarget` follows the tier. -/
def computePermissionState (hostname baseDomain : JsStr)
    (grantedOrigins : List JsStr) : PermissionState :=
  let isBase := isBaseHost hostname baseDomain
  let pats := buildPatterns hostname baseDomain
  let hasGlobal := grantedOrigins.contains allUrls
  let hasWildcard := hasPattern grantedOrigins pats.wildcard
  let hasBaseOnly := hasPattern grantedOrigins pats.baseOnly
  let hasHost := hasPattern grantedOrigins pats.host
  let effective : Tier :=
    if hasGlobal then Tier.global
    else if hasWildcard then Tier.wildcard
    else if isBase then (if hasBaseOnly then Tier.baseOnly else Tier.none)
    else (if hasHost && hasBaseOnly then Tier.pair else Tier.none)
  let grantMissing : List JsStr :=
    if effective = Tier.none then
      if isBase then pats.baseOnly.toList
      else
        (if hasHost then [] else pats.host.toList) ++
          (if hasBaseOnly then [] else pats.baseOnly.toList)
    else []
  let revokeTarget : Option JsStr :=
    match effective with
    | Tier.global => some allUrls
    | Tier.wildcard => pats.wildcard
    | Tier.baseOnly => pats.baseOnly
    | Tier.pair => pats.host
    | Tier.none => Option.none
  { isBaseDomain := isBase, hasGlobal := hasGlobal, hasWildcard := hasWildcard,
    hasBaseOnly := hasBaseOnly, hasHost := hasHost, effective := effective,
    grantMissing := grantMissing, revokeTarget := revokeTarget }

/-- The popup view mode argument of `buildPermissionButtonConfig`. -/
inductive ViewMode
  | site
  | all
deriving DecidableEq, Repr

/-- The configuration record returned by `buildPermissionButtonConfig`;
the optional `allPermsWarning` field is only set on the 'all' view. -/
structure ButtonConfig where
  visible : Bool
  text : JsStr
  action : JsStr
  origins : List JsStr
  revokeClass : Bool
  allPermsWarning : Option Bool
deriving DecidableEq, Repr

/-- Embedding of the `permissionsContains` collaborator as used by
`buildPermissionButtonConfig`: against the snapshot `granted`,
`permissionsContains({ origins })` is true iff every listed pattern is
currently granted (spec §6). -/
def permissionsContains (granted : List JsStr) (origins : List JsStr) : Bool :=
  origins.all granted.contains

/-- Embedding of `buildPermissionButtonConfig` from
`src/utils/permissionsUi.js` (bundled at `src/utils/cookiePartition.js`
lines 137–205; `updatePermissionUI` in `src/popup/popup.js` lines 618–717
inlines the same decision chain), with the live browser permission store
replaced by the granted-origins snapshot `granted`. -/
def buildPermissionButtonConfig (granted : List JsStr) (viewMode : ViewMode)
    (currentHost currentBaseDomain : JsStr) : ButtonConfig :=
  if viewMode = ViewMode.all then
    let hasAll := permissionsContains granted [allUrls]
    { visible := true
      text := if hasAll then js "Revoke Access" else js "Grant Full Access"
      action := if hasAll then js "revoke" else js "grant"
      origins := [allUrls]
      revokeClass := hasAll
      allPermsWarning := some (!hasAll) }
  else
    -- site view
    if currentBaseDomain = [] then
      { visible := false, text := [], action := js "grant", origins := [],
        revokeClass := false, allPermsWarning := Option.none }
    else
      if currentHost = currentBaseDomain ∨
          currentHost = js "www." ++ currentBaseDomain then
        let baseOnly := basePatternOf currentBaseDomain
        let wildcard := wildcardPatternOf currentBaseDomain
        let hasGlobal := permissionsContains granted [allUrls]
        let hasWildcard := permissionsContains granted [wildcard]
        let hasBaseOnly := permissionsContains granted [baseOnly]
        if hasGlobal then
          { visible := true, text := js "Revoke Access", action := js "revoke",
            origins := [allUrls], revokeClass := true, allPermsWarning := Option.none }
        else if hasWildcard then
          { visible := true, text := js "Revoke Access for *." ++ currentBaseDomain,
            action := js "revoke", origins := [wildcard], revokeClass := true,
            allPermsWarning := Option.none }
        else if hasBaseOnly then
          { visible := true, text := js "Revoke Access for " ++ currentBaseDomain,
            action := js "revoke", origins := [baseOnly], revokeClass := true,
            allPermsWarning := Option.none }
        else
          { visible := true, text := js "Grant Access to " ++ currentBaseDomain,
            action := js "grant", origins := [baseOnly], revokeClass := false,
            allPermsWarning := Option.none }
      else
        -- subdomain case
        let hostPattern := hostPatternOf currentHost
        let basePattern := basePatternOf currentBaseDomain
        let wildcard := wildcardPatternOf currentBaseDomain
        let hasGlobal := permissionsContains granted [allUrls]
        let hasWildcard := permissionsContains granted [wildcard]
        let hasHost := permissionsContains granted [hostPattern]
        let hasBase := permissionsContains granted [basePattern]
        if hasGlobal then
          { visible := true, text := js "Revoke Global Access",
            action := js "revoke", origins := [allUrls], revokeClass := true,
            allPermsWarning := Option.none }
        else if hasWildcard then
          { visible := true, text := js "Revoke Access for *." ++ currentBaseDomain,
            action := js "revoke", origins := [wildcard], revokeClass := true,
            allPermsWarning := Option.none }
        else if hasHost && hasBase then
          { visible := true, text := js "Revoke Access for " ++ currentHost,
            action := js "revoke", origins := [hostPattern], revokeClass := true,
            allPermsWarning := Option.none }
        else
          let missing :=
            (if hasHost then [] else [hostPattern]) ++
              (if hasBase then [] else [basePattern])
          let displayName :=
            if currentHost = [] then currentBaseDomain else currentHost
          { visible := true, text := js "Grant Access to " ++ displayName,
            action := js "grant", origins := missing, revokeClass := false,
            allPermsWarning := Option.none }

/-- The sibling-host test of the 'pair'-tier revoke branch of the
helper-based popup's `updatePermissionUI`: a granted origin `o` counts as
a sibling subdomain grant when it has the shape `*://…/*`, is none of the
current host, base-only and wildcard patterns, and ends in
`.<baseDomain>/*`. -/
def isSiblingHostPattern (host base : JsStr) (o : JsStr) : Bool :=
  if ¬(js "*://" <+: o) ∨ ¬(js "/*" <:+ o) then false
  else if o = basePatternOf base ∨ o = wildcardPatternOf base then false
  else if o = hostPatternOf host then false
  else decide ((js "." ++ base ++ js "/*") <:+ o)

/-- Embedding of the revoke-list computation of the 'pair'-tier branch of
the helper-based popup's `updatePermissionUI` (lines 314–334 of the popup
source): start from `[host]` and push the base-only pattern exactly when
it is granted and the sibling count is zero. The concrete host, base-only
and wildcard pattern strings stand for the patterns of the current pair,
which are non-null on this branch. -/
def pairRevokeList (host base : JsStr) (granted : List JsStr) : List JsStr :=
  let siblingHostCount := (granted.filter (isSiblingHostPattern host base)).length
  let revokeList := [hostPatternOf host]
  if granted.contains (basePatternOf base) ∧ siblingHostCount = 0 then
    revokeList ++ [basePatternOf base]
  else revokeList

theorem splitOnDot_ne_nil (s : JsStr) : splitOnDot s ≠ [] := by
  cases s with
  | nil => simp [splitOnDot]
  | cons c rest =>
    simp only [splitOnDot]
    split <;> simp

theorem joinDots_splitOnDot (s : JsStr) : joinDots (splitOnDot s) = s := by
  induction s with
  | nil => rfl
  | cons c rest ih =>
    simp only [splitOnDot]
    cases h : splitOnDot rest with
    | nil => exact absurd h (splitOnDot_ne_nil rest)
    | cons p ps =>
      rw [h] at ih
      by_cases hc : c = '.'
      · subst hc
        rw [if_pos rfl]
        show List.nil ++ '.' :: joinDots (p :: ps) = '.' :: rest
        rw [ih, List.nil_append]
      · rw [if_neg hc, List.headD_cons, List.tail_cons]
        cases ps with
        | nil =>
          show c :: p = c :: rest
          simpa [joinDots] using ih
        | cons q qs =>
          show (c :: p) ++ '.' :: joinDots (q :: qs) = c :: rest
          rw [List.cons_append]
          simp only [joinDots] at ih
          rw [ih]

theorem not_dot_mem_of_mem_splitOnDot {s l : JsStr} (hl : l ∈ splitOnDot s) :
    '.' ∉ l := by
  induction s generalizing l with
  | nil =>
    simp only [splitOnDot, List.mem_singleton] at hl
    subst hl; simp
  | cons c rest ih =>
    simp only [splitOnDot] at hl
    cases h : splitOnDot rest with
    | nil => exact absurd h (splitOnDot_ne_nil rest)
    | cons p ps =>
      rw [h] at hl
      by_cases hc : c = '.'
      · subst hc
        rw [if_pos rfl] at hl
        rcases List.mem_cons.mp hl with h0 | h1
        · subst h0; simp
        · exact ih (h ▸ h1)
      · rw [if_neg hc, List.headD_cons, List.tail_cons] at hl
        rcases List.mem_cons.mp hl with h0 | h1
        · subst h0
          intro hmem
          rcases List.mem_cons.mp hmem with h2 | h3
          · exact hc h2.symm
          · exact ih (h ▸ List.mem_cons_self p ps) h3
        · exact ih (h ▸ List.mem_cons_of_mem p h1)

theorem splitOnDot_eq_single {p : JsStr} (hp : '.' ∉ p) : splitOnDot p = [p] := by
  induction p with
  | nil => rfl
  | cons c cs ih =>
    have hc : c ≠ '.' := fun e => hp (e ▸ List.mem_cons_self c cs)
    have hcs : '.' ∉ cs := fun m => hp (List.mem_cons_of_mem c m)
    simp only [splitOnDot, ih hcs]
    rw [if_neg hc, List.headD_cons, List.tail_cons]

theorem splitOnDot_append_dot (p t : JsStr) (hp : '.' ∉ p) :
    splitOnDot (p ++ '.' :: t) = p :: splitOnDot t := by
  induction p with
  | nil =>
    simp only [List.nil_append, splitOnDot]
    simp
  | cons c cs ih =>
    have hc : c ≠ '.' := fun e => hp (e ▸ List.mem_cons_self c cs)
    have hcs : '.' ∉ cs := fun m => hp (List.mem_cons_of_mem c m)
    simp only [List.cons_append, splitOnDot, List.append_eq, ih hcs]
    rw [if_neg hc, List.headD_cons, List.tail_cons]

theorem splitOnDot_joinDots (L : List JsStr) (hL : L ≠ [])
    (hdot : ∀ l ∈ L, '.' ∉ l) : splitOnDot (joinDots L) = L := by
  induction L with
  | nil => exact absurd rfl hL
  | cons p ps ih =>
    cases ps with
    | nil =>
      show splitOnDot (joinDots [p]) = [p]
      simpa [joinDots] using splitOnDot_eq_single (hdot p (List.mem_cons_self p []))
    | cons q qs =>
      show splitOnDot (p ++ '.' :: joinDots (q :: qs)) = p :: q :: qs
      rw [splitOnDot_append_dot p _ (hdot p (List.mem_cons_self p (q :: qs)))]
      rw [ih (by simp) (fun l hl => hdot l (List.mem_cons_of_mem p hl))]

theorem joinDots_suffix_cons (p : JsStr) (L : List JsStr) :
    joinDots L <:+ joinDots (p :: L) := by
  cases L with
  | nil => simp [joinDots]
  | cons q qs =>
    show joinDots (q :: qs) <:+ p ++ '.' :: joinDots (q :: qs)
    exact ⟨p ++ ['.'], by simp⟩

theorem joinDots_drop_suffix (n : Nat) (L : List JsStr) :
    joinDots (L.drop n) <:+ joinDots L := by
  induction n generalizing L with
  | zero => simp
  | succ n ih =>
    cases L with
    | nil => simp
    | cons p ps => exact (ih ps).trans (joinDots_suffix_cons p ps)

theorem cleanHost_joinDots (L : List JsStr) (hne : L ≠ [])
    (hk : ∀ l ∈ L, l ≠ [] ∧ '.' ∉ l) :
    joinDots L ≠ [] ∧ cleanHost (joinDots L) = joinDots L := by
  obtain ⟨p, rest, rfl⟩ := List.exists_cons_of_ne_nil hne
  obtain ⟨hp, hpd⟩ := hk p (List.mem_cons_self p rest)
  obtain ⟨c, cs, rfl⟩ := List.exists_cons_of_ne_nil hp
  have hc : c ≠ '.' := fun e => hpd (e ▸ List.mem_cons_self c cs)
  cases rest with
  | nil =>
    refine ⟨by simp [joinDots], ?_⟩
    show cleanHost (c :: cs) = c :: cs
    simp [cleanHost, hc]
  | cons q qs =>
    constructor
    · show (c :: cs) ++ '.' :: joinDots (q :: qs) ≠ []
      simp
    · show cleanHost ((c :: cs) ++ '.' :: joinDots (q :: qs)) =
        (c :: cs) ++ '.' :: joinDots (q :: qs)
      rw [List.cons_append]
      simp [cleanHost, hc]

theorem labelsOf_joinDots (L : List JsStr) (hne : L ≠ [])
    (hk : ∀ l ∈ L, l ≠ [] ∧ '.' ∉ l) : labelsOf (joinDots L) = L := by
  rw [labelsOf, (cleanHost_joinDots L hne hk).2]
  exact splitOnDot_joinDots L hne (fun l hl => (hk l hl).2)

theorem lastN_split_three (P : List JsStr) (hlen : 3 ≤ P.length) :
    ∃ a b c, lastN 3 P = [a, b, c] ∧ P.getD (P.length - 2) [] = b ∧
      lastN 2 P = [b, c] := by
  have h3 : (P.drop (P.length - 3)).length = 3 := by
    rw [List.length_drop]; omega
  obtain ⟨a, b, c, habc⟩ := List.length_eq_three.mp h3
  refine ⟨a, b, c, ?_, ?_, ?_⟩
  · simpa [lastN] using habc
  · have h2 : P.length - 2 = P.length - 3 + 1 := by omega
    rw [List.getD_eq_getElem?_getD, h2, ← List.getElem?_drop, habc]
    rfl
  · have h2 : P.length - 3 + 1 = P.length - 2 := by omega
    have hdd : P.drop (P.length - 2) = (P.drop (P.length - 3)).drop 1 := by
      rw [List.drop_drop, h2]
    simp [lastN, hdd, habc]

theorem mem_labelsOf_good {h : JsStr} (hne : [] ∉ labelsOf h) :
    ∀ l ∈ labelsOf h, l ≠ [] ∧ '.' ∉ l :=
  fun l hl => ⟨fun e => hne (e ▸ hl), not_dot_mem_of_mem_splitOnDot hl⟩

/-- C1 (counterexample): the spec's own multi-label-suffix table contains
`ac.uk`, yet on `sub.example.ac.uk` — which has four labels and last-two
pair `ac.uk` — `getBaseDomain` does not return the last three labels: the
source tests `parts[parts.length - 2] ∈ ['co','com','net','org','gov','edu']`
and `'ac'` is not in that list, so it returns `ac.uk`. -/
theorem c1_counterexample :
    3 ≤ (labelsOf (js "sub.example.ac.uk")).length ∧
    joinDots (lastN 2 (labelsOf (js "sub.example.ac.uk"))) ∈ specMultiLabelSuffixTable ∧
    getBaseDomain (js "sub.example.ac.uk") ≠
      joinDots (lastN 3 (labelsOf (js "sub.example.ac.uk"))) := by
  decide

/-- C1 (amended): for every hostname with at least 3 labels,
`getBaseDomain` returns the last three labels joined with `'.'` exactly
when the second-to-last label is one of `co`, `com`, `net`, `org`, `gov`,
`edu` (regardless of the last label), and the last two labels joined with
`'.'` otherwise. -/
theorem c1_last_labels_by_common_tld (h : JsStr)
    (hlen : 3 ≤ (labelsOf h).length) :
    getBaseDomain h =
      if (labelsOf h).getD ((labelsOf h).length - 2) [] ∈ commonTlds then
        joinDots (lastN 3 (labelsOf h))
      else joinDots (lastN 2 (labelsOf h)) := by
  have hh : h ≠ [] := by
    intro e
    rw [e] at hlen
    exact absurd hlen (by decide)
  unfold getBaseDomain
  rw [if_neg hh, if_neg (by omega)]
  by_cases hm : (labelsOf h).getD ((labelsOf h).length - 2) [] ∈ commonTlds
  · rw [if_pos ⟨by omega, hm⟩, if_pos hm]
  · rw [if_neg (fun hand => hm hand.2), if_neg hm]

/-- C1 (witness): the amended statement evaluated at `deep.sub.example.co.uk`. -/
theorem c1_witness :
    3 ≤ (labelsOf (js "deep.sub.example.co.uk")).length ∧
    getBaseDomain (js "deep.sub.example.co.uk") =
      (if (labelsOf (js "deep.sub.example.co.uk")).getD
            ((labelsOf (js "deep.sub.example.co.uk")).length - 2) [] ∈ commonTlds then
         joinDots (lastN 3 (labelsOf (js "deep.sub.example.co.uk")))
       else joinDots (lastN 2 (labelsOf (js "deep.sub.example.co.uk")))) :=
  ⟨by decide, c1_last_labels_by_common_tld (js "deep.sub.example.co.uk") (by decide)⟩

/-- C5 (counterexample): `a..b` has two non-empty labels, so per the
claim it should be returned unchanged, but the source keeps the empty
label produced by `..` (three parts in total) and returns `.b`. -/
theorem c5_counterexample :
    ((labelsOf (js "a..b")).filter (fun l => !l.isEmpty)).length ≤ 2 ∧
    getBaseDomain (js "a..b") ≠ cleanHost (js "a..b") := by
  decide

/-- C5 (amended): `getBaseDomain` strips a single leading `'.'` and splits
the remainder on `'.'` keeping empty labels; for every hostname whose
total label count (empty labels included) is at most 2 it returns the
cleaned hostname unchanged, and it returns the empty string for an empty
input (the `h = []` instance of this statement). -/
theorem c5_label_count_le_two_identity (h : JsStr)
    (hle : (labelsOf h).length ≤ 2) :
    getBaseDomain h = cleanHost h := by
  by_cases hh : h = []
  · subst hh; decide
  · unfold getBaseDomain
    rw [if_neg hh, if_pos hle]

/-- C5 (witness): the amended statement evaluated at `example.com`. -/
theorem c5_witness :
    (labelsOf (js "example.com")).length ≤ 2 ∧
    getBaseDomain (js "example.com") = cleanHost (js "example.com") :=
  ⟨by decide, c5_label_count_le_two_identity (js "example.com") (by decide)⟩

/-- C6 (counterexample): `getBaseDomain` is not idempotent: on `x..y` the
first application keeps the empty label and returns `.y`, and the second
application strips that leading dot and returns `y`. -/
theorem c6_counterexample :
    getBaseDomain (getBaseDomain (js "x..y")) ≠ getBaseDomain (js "x..y") := by
  decide

/-- C6 (amended): `getBaseDomain` is idempotent on every hostname none of
whose labels (after the leading-dot strip, split on `'.'`) is empty;
idempotence can fail when an empty label is present. -/
theorem c6_idempotent_on_clean_labels (h : JsStr) (hne : [] ∉ labelsOf h) :
    getBaseDomain (getBaseDomain h) = getBaseDomain h := by
  have hgood := mem_labelsOf_good hne
  have hP : labelsOf h ≠ [] := splitOnDot_ne_nil _
  have hh : h ≠ [] := by
    intro e
    rw [e] at hne
    exact hne (by decide)
  have hjoin : joinDots (labelsOf h) = cleanHost h := joinDots_splitOnDot (cleanHost h)
  by_cases hlen : (labelsOf h).length ≤ 2
  · have hres : getBaseDomain h = cleanHost h := by
      unfold getBaseDomain
      rw [if_neg hh, if_pos hlen]
    have h1 := cleanHost_joinDots (labelsOf h) hP hgood
    rw [hjoin] at h1
    have h2 := labelsOf_joinDots (labelsOf h) hP hgood
    rw [hjoin] at h2
    rw [hres]
    unfold getBaseDomain
    rw [if_neg h1.1, if_pos (by rw [h2]; exact hlen), h1.2]
  · have hlen3 : 3 ≤ (labelsOf h).length := by omega
    obtain ⟨a, b, c, habc, hgetD, hbc⟩ := lastN_split_three (labelsOf h) hlen3
    have hmem3 : ∀ l ∈ [a, b, c], l ≠ [] ∧ '.' ∉ l := by
      intro l hl
      refine hgood l ?_
      have hsub : lastN 3 (labelsOf h) ⊆ labelsOf h := List.drop_subset _ _
      exact hsub (habc ▸ hl)
    by_cases hcond : (labelsOf h).getD ((labelsOf h).length - 2) [] ∈ commonTlds
    · have hb : b ∈ commonTlds := hgetD ▸ hcond
      have hres : getBaseDomain h = joinDots [a, b, c] := by
        unfold getBaseDomain
        rw [if_neg hh, if_neg hlen, if_pos ⟨by omega, hcond⟩, habc]
      have hne3 : ([a, b, c] : List JsStr) ≠ [] := by simp
      have h1 := cleanHost_joinDots [a, b, c] hne3 hmem3
      have h2 := labelsOf_joinDots [a, b, c] hne3 hmem3
      rw [hres]
      unfold getBaseDomain
      rw [if_neg h1.1, if_neg (by rw [h2]; simp),
        if_pos ⟨by rw [h2]; simp, by rw [h2]; simpa using hb⟩]
      rw [h2]
      simp [lastN]
    · have hres : getBaseDomain h = joinDots [b, c] := by
        unfold getBaseDomain
        rw [if_neg hh, if_neg hlen, if_neg (fun hand => hcond hand.2), hbc]
      have hmem2 : ∀ l ∈ [b, c], l ≠ [] ∧ '.' ∉ l := by
        intro l hl
        refine hmem3 l ?_
        rcases List.mem_cons.mp hl with h0 | h1
        · exact h0 ▸ (by simp)
        · exact List.mem_cons_of_mem a (List.mem_cons_of_mem b h1)
      have hne2 : ([b, c] : List JsStr) ≠ [] := by simp
      have h1 := cleanHost_joinDots [b, c] hne2 hmem2
      have h2 := labelsOf_joinDots [b, c] hne2 hmem2
      rw [hres]
      unfold getBaseDomain
      rw [if_neg h1.1, if_pos (by rw [h2]; simp), h1.2]

/-- C6 (witness): the amended statement evaluated at `mail.google.com`. -/
theorem c6_witness :
    [] ∉ labelsOf (js "mail.google.com") ∧
    getBaseDomain (getBaseDomain (js "mail.google.com")) =
      getBaseDomain (js "mail.google.com") :=
  ⟨by decide, c6_idempotent_on_clean_labels (js "mail.google.com") (by decide)⟩

/-- C9 (confirmed): for every input, the result of `getBaseDomain` is a
suffix of the input after the single leading-dot strip — the resolver
never fabricates labels that are not at the end of its cleaned input. -/
theorem c9_result_suffix_of_cleaned (h : JsStr) :
    getBaseDomain h <:+ cleanHost h := by
  by_cases hh : h = []
  · subst hh
    simp [getBaseDomain, cleanHost]
  · unfold getBaseDomain
    rw [if_neg hh]
    by_cases hlen : (labelsOf h).length ≤ 2
    · rw [if_pos hlen]
    · rw [if_neg hlen]
      have hsfx : ∀ n, joinDots (lastN n (labelsOf h)) <:+ cleanHost h := by
        intro n
        have hd := joinDots_drop_suffix ((labelsOf h).length - n) (labelsOf h)
        rw [show joinDots (labelsOf h) = cleanHost h from
          joinDots_splitOnDot (cleanHost h)] at hd
        simpa [lastN] using hd
      split
      · exact hsfx 3
      · exact hsfx 2

/-- C2 (confirmed, engine modelled from the spec): the effective tier is
resolved by strict precedence — the `<all_urls>` sentinel in the granted
set forces tier `global` regardless of every other grant, and otherwise a
granted wildcard pattern forces tier `wildcard` even when the host and
base-only patterns are also granted. -/
theorem c2_precedence (h b : JsStr) (granted : List JsStr) :
    (allUrls ∈ granted →
      (computePermissionState h b granted).effective = Tier.global) ∧
    (allUrls ∉ granted → b ≠ [] → wildcardPatternOf b ∈ granted →
      (computePermissionState h b granted).effective = Tier.wildcard) := by
  constructor
  · intro hmem
    simp [computePermissionState, hmem]
  · intro hng hb hw
    simp [computePermissionState, buildPatterns, if_neg hb, hasPattern, hng, hw]

/-- C2 (witness): the precedence statement evaluated at
`mail.google.com` / `google.com` with concrete grant sets. -/
theorem c2_witness :
    (computePermissionState (js "mail.google.com") (js "google.com")
      [allUrls, wildcardPatternOf (js "google.com")]).effective = Tier.global ∧
    (computePermissionState (js "mail.google.com") (js "google.com")
      [wildcardPatternOf (js "google.com"),
       hostPatternOf (js "mail.google.com"),
       basePatternOf (js "google.com")]).effective = Tier.wildcard :=
  ⟨(c2_precedence (js "mail.google.com") (js "google.com")
      [allUrls, wildcardPatternOf (js "google.com")]).1 (by decide),
   (c2_precedence (js "mail.google.com") (js "google.com")
      [wildcardPatternOf (js "google.com"),
       hostPatternOf (js "mail.google.com"),
       basePatternOf (js "google.com")]).2 (by decide) (by decide) (by decide)⟩

/-- C3 (confirmed, engine modelled from the spec): on a subdomain view
with neither the sentinel nor the wildcard granted, the effective tier is
`pair` iff both the host and the base-only patterns are granted and
`none` otherwise; when it is `none`, `grantMissing` lists exactly the
absent ones of those two patterns with the host pattern first, and when
it is not `none`, `grantMissing` is empty. -/
theorem c3_subdomain_pair (h b : JsStr) (granted : List JsStr)
    (hh : h ≠ []) (hb : b ≠ [])
    (hsub1 : h ≠ b) (hsub2 : h ≠ js "www." ++ b)
    (hng : allUrls ∉ granted) (hnw : wildcardPatternOf b ∉ granted) :
    ((computePermissionState h b granted).effective = Tier.pair ↔
      (hostPatternOf h ∈ granted ∧ basePatternOf b ∈ granted)) ∧
    ((computePermissionState h b granted).effective = Tier.pair ∨
      (computePermissionState h b granted).effective = Tier.none) ∧
    ((computePermissionState h b granted).effective = Tier.none →
      (computePermissionState h b granted).grantMissing =
        (if hostPatternOf h ∈ granted then [] else [hostPatternOf h]) ++
          (if basePatternOf b ∈ granted then [] else [basePatternOf b])) ∧
    ((computePermissionState h b granted).effective ≠ Tier.none →
      (computePermissionState h b granted).grantMissing = []) := by
  have hisb : isBaseHost h b = false := by
    unfold isBaseHost
    split
    · rfl
    · simp [hsub1, hsub2]
  by_cases hH : hostPatternOf h ∈ granted <;>
    by_cases hB : basePatternOf b ∈ granted <;>
      simp [computePermissionState, buildPatterns, if_neg hb, if_neg hh,
        hasPattern, hisb, hng, hnw, hH, hB]

/-- C3 (witness): the subdomain statement evaluated at
`mail.google.com` / `google.com` with only the host pattern granted. -/
theorem c3_witness :
    ((computePermissionState (js "mail.google.com") (js "google.com")
        [hostPatternOf (js "mail.google.com")]).effective = Tier.pair ↔
      (hostPatternOf (js "mail.google.com") ∈ [hostPatternOf (js "mail.google.com")] ∧
        basePatternOf (js "google.com") ∈ [hostPatternOf (js "mail.google.com")])) ∧
    ((computePermissionState (js "mail.google.com") (js "google.com")
        [hostPatternOf (js "mail.google.com")]).effective = Tier.pair ∨
      (computePermissionState (js "mail.google.com") (js "google.com")
        [hostPatternOf (js "mail.google.com")]).effective = Tier.none) ∧
    ((computePermissionState (js "mail.google.com") (js "google.com")
        [hostPatternOf (js "mail.google.com")]).effective = Tier.none →
      (computePermissionState (js "mail.google.com") (js "google.com")
          [hostPatternOf (js "mail.google.com")]).grantMissing =
        (if hostPatternOf (js "mail.google.com") ∈ [hostPatternOf (js "mail.google.com")]
         then [] else [hostPatternOf (js "mail.google.com")]) ++
          (if basePatternOf (js "google.com") ∈ [hostPatternOf (js "mail.google.com")]
           then [] else [basePatternOf (js "google.com")])) ∧
    ((computePermissionState (js "mail.google.com") (js "google.com")
        [hostPatternOf (js "mail.google.com")]).effective ≠ Tier.none →
      (computePermissionState (js "mail.google.com") (js "google.com")
        [hostPatternOf (js "mail.google.com")]).grantMissing = []) :=
  c3_subdomain_pair (js "mail.google.com") (js "google.com")
    [hostPatternOf (js "mail.google.com")]
    (by decide) (by decide) (by decide) (by decide) (by decide) (by decide)

/-- C4 (confirmed, engine modelled from the spec): the revoke target is
determined by the effective tier — `global` maps to the `<all_urls>`
sentinel, `wildcard` to the wildcard pattern, `baseOnly` to the base-only
pattern, `pair` to the host pattern only, and `none` to null. -/
theorem c4_revoke_target_by_tier (h b : JsStr) (granted : List JsStr) :
    ((computePermissionState h b granted).effective = Tier.global →
      (computePermissionState h b granted).revokeTarget = some allUrls) ∧
    ((computePermissionState h b granted).effective = Tier.wildcard →
      (computePermissionState h b granted).revokeTarget =
        some (wildcardPatternOf b)) ∧
    ((computePermissionState h b granted).effective = Tier.baseOnly →
      (computePermissionState h b granted).revokeTarget =
        some (basePatternOf b)) ∧
    ((computePermissionState h b granted).effective = Tier.pair →
      (computePermissionState h b granted).revokeTarget =
        some (hostPatternOf h)) ∧
    ((computePermissionState h b granted).effective = Tier.none →
      (computePermissionState h b granted).revokeTarget = Option.none) := by
  by_cases hbb : b = []
  · subst hbb
    by_cases hg : allUrls ∈ granted <;>
      simp [computePermissionState, buildPatterns, hasPattern, hg]
  · by_cases hhh : h = []
    · subst hhh
      by_cases hg : allUrls ∈ granted <;>
        by_cases hw : wildcardPatternOf b ∈ granted <;>
          by_cases hB : basePatternOf b ∈ granted <;>
            cases hisb : isBaseHost [] b <;>
              simp [computePermissionState, buildPatterns, if_neg hbb,
                hasPattern, hg, hw, hB, hisb]
    · by_cases hg : allUrls ∈ granted <;>
        by_cases hw : wildcardPatternOf b ∈ granted <;>
          by_cases hB : basePatternOf b ∈ granted <;>
            by_cases hH : hostPatternOf h ∈ granted <;>
              cases hisb : isBaseHost h b <;>
                simp [computePermissionState, buildPatterns, if_neg hbb,
                  if_neg hhh, hasPattern, hg, hw, hB, hH, hisb]

/-- C4 (witness): the revoke-target statement evaluated on the `pair`
tier at `mail.google.com` / `google.com`. -/
theorem c4_witness :
    (computePermissionState (js "mail.google.com") (js "google.com")
      [hostPatternOf (js "mail.google.com"),
       basePatternOf (js "google.com")]).revokeTarget =
      some (hostPatternOf (js "mail.google.com")) :=
  (c4_revoke_target_by_tier (js "mail.google.com") (js "google.com")
    [hostPatternOf (js "mail.google.com"),
     basePatternOf (js "google.com")]).2.2.2.1 (by decide)

/-- C7 (confirmed, modelled from the spec): `isBaseHost` returns false
when both inputs are falsy, and otherwise returns true iff the hostname
equals the base domain or `www.` plus the base domain. -/
theorem c7_isBaseHost_spec (h b : JsStr) :
    ((h = [] ∧ b = []) → isBaseHost h b = false) ∧
    (¬(h = [] ∧ b = []) →
      (isBaseHost h b = true ↔ (h = b ∨ h = js "www." ++ b))) := by
  constructor
  · intro hfalsy
    unfold isBaseHost
    rw [if_pos hfalsy]
  · intro hnf
    unfold isBaseHost
    rw [if_neg hnf]
    simp

/-- C7 (witness): the statement evaluated at
`www.google.com` / `google.com`. -/
theorem c7_witness :
    ¬(js "www.google.com" = ([] : JsStr) ∧ js "google.com" = ([] : JsStr)) ∧
    (isBaseHost (js "www.google.com") (js "google.com") = true ↔
      (js "www.google.com" = js "google.com" ∨
        js "www.google.com" = js "www." ++ js "google.com")) :=
  ⟨by decide,
   (c7_isBaseHost_spec (js "www.google.com") (js "google.com")).2 (by decide)⟩

/-- C8 (confirmed; the permission-state part is modelled from the spec):
the core functions are total by construction in this embedding, and on
missing inputs they degrade to the conservative outputs instead of
failing — `getBaseDomain` returns the empty string on empty input, the
site-view button config with a falsy base domain is invisible with no
origins, and the engine, given a falsy base domain and no global
sentinel, reports tier `none`, an empty missing-grant list and a null
revoke target. -/
theorem c8_graceful_degradation (h : JsStr) (granted : List JsStr) :
    getBaseDomain [] = [] ∧
    buildPermissionButtonConfig granted ViewMode.site h [] =
      { visible := false, text := [], action := js "grant", origins := [],
        revokeClass := false, allPermsWarning := Option.none } ∧
    (allUrls ∉ granted →
      (computePermissionState h [] granted).effective = Tier.none ∧
      (computePermissionState h [] granted).grantMissing = [] ∧
      (computePermissionState h [] granted).revokeTarget = Option.none) := by
  refine ⟨rfl, ?_, ?_⟩
  · unfold buildPermissionButtonConfig
    simp
  · intro hng
    simp [computePermissionState, buildPatterns, hasPattern, hng]

/-- C8 (witness): the degradation statement evaluated at hostname `x`
with an empty grant set. -/
theorem c8_witness :
    allUrls ∉ ([] : List JsStr) ∧
    ((computePermissionState (js "x") [] []).effective = Tier.none ∧
      (computePermissionState (js "x") [] []).grantMissing = [] ∧
      (computePermissionState (js "x") [] []).revokeTarget = Option.none) :=
  ⟨by decide, (c8_graceful_degradation (js "x") []).2.2 (by decide)⟩

theorem isSiblingHostPattern_iff (host base o : JsStr) :
    isSiblingHostPattern host base o = true ↔
      (js "*://" <+: o ∧ js "/*" <:+ o ∧ o ≠ hostPatternOf host ∧
        o ≠ basePatternOf base ∧ o ≠ wildcardPatternOf base ∧
        (js "." ++ base ++ js "/*") <:+ o) := by
  unfold isSiblingHostPattern
  split_ifs with h1 h2 h3 <;> simp <;> tauto

/-- C10 (confirmed): in the helper-based popup's `pair`-tier revoke
computation, the revoke list always contains the host pattern, and it
additionally contains the base-only pattern exactly when the base-only
pattern is in the granted snapshot and no other granted pattern of shape
`*://…/*` ending in `.<baseDomain>/*` — the current host, base-only and
wildcard patterns excluded — remains. -/
theorem c10_pair_revoke_base_iff_no_sibling (host base : JsStr)
    (granted : List JsStr) (hne : host ≠ base) :
    hostPatternOf host ∈ pairRevokeList host base granted ∧
    (basePatternOf base ∈ pairRevokeList host base granted ↔
      (basePatternOf base ∈ granted ∧
        ∀ o ∈ granted, ¬(js "*://" <+: o ∧ js "/*" <:+ o ∧
          o ≠ hostPatternOf host ∧ o ≠ basePatternOf base ∧
          o ≠ wildcardPatternOf base ∧ (js "." ++ base ++ js "/*") <:+ o))) := by
  have hinj : basePatternOf base ≠ hostPatternOf host := by
    intro he
    apply hne
    have h1 := List.append_cancel_left
      (show js "*://" ++ (base ++ js "/*") = js "*://" ++ (host ++ js "/*") by
        simpa [basePatternOf, hostPatternOf, List.append_assoc] using he)
    exact (List.append_cancel_right h1).symm
  constructor
  · simp only [pairRevokeList]
    split <;> simp
  · simp only [pairRevokeList]
    split
    next hcond =>
      obtain ⟨hmem, hcount⟩ := hcond
      simp only [List.mem_append, List.mem_singleton]
      constructor
      · intro _
        refine ⟨by simpa using hmem, ?_⟩
        intro o ho hsib
        have hnil : granted.filter (isSiblingHostPattern host base) = [] :=
          List.length_eq_zero.mp hcount
        exact (List.filter_eq_nil_iff.mp hnil) o ho
          ((isSiblingHostPattern_iff host base o).mpr hsib)
      · intro _
        simp
    next hcond =>
      simp only [List.mem_singleton]
      constructor
      · intro hmem
        exact absurd hmem hinj
      · rintro ⟨hb, hall⟩
        exfalso
        apply hcond
        refine ⟨by simpa using hb, ?_⟩
        rw [List.length_eq_zero, List.filter_eq_nil_iff]
        intro o ho hpred
        exact hall o ho ((isSiblingHostPattern_iff host base o).mp hpred)

/-- C10 (witness): the revoke-list statement evaluated at
`mail.google.com` / `google.com` with the host and base-only patterns
granted and no sibling grant. -/
theorem c10_witness :
    hostPatternOf (js "mail.google.com") ∈
      pairRevokeList (js "mail.google.com") (js "google.com")
        [hostPatternOf (js "mail.google.com"), basePatternOf (js "google.com")] ∧
    (basePatternOf (js "google.com") ∈
        pairRevokeList (js "mail.google.com") (js "google.com")
          [hostPatternOf (js "mail.google.com"), basePatternOf (js "google.com")] ↔
      (basePatternOf (js "google.com") ∈
          [hostPatternOf (js "mail.google.com"), basePatternOf (js "google.com")] ∧
        ∀ o ∈ [hostPatternOf (js "mail.google.com"), basePatternOf (js "google.com")],
          ¬(js "*://" <+: o ∧ js "/*" <:+ o ∧
            o ≠ hostPatternOf (js "mail.google.com") ∧
            o ≠ basePatternOf (js "google.com") ∧
            o ≠ wildcardPatternOf (js "google.com") ∧
            (js "." ++ js "google.com" ++ js "/*") <:+ o))) :=
  c10_pair_revoke_base_iff_no_sibling (js "mail.google.com") (js "google.com")
    [hostPatternOf (js "mail.google.com"), basePatternOf (js "google.com")]
    (by decide)

/-- Seed scenarios 1–3 of spec §8: base-domain resolution samples. -/
theorem seed_base_domain_scenarios :
    getBaseDomain (js "mail.google.com") = js "google.com" ∧
    getBaseDomain (js "sub.example.co.uk") = js "example.co.uk" ∧
    getBaseDomain (js ".example.com") = js "example.com" := by
  decide

/-- Seed scenarios 4–6 of spec §8: permission-state samples, evaluated on
the modelled engine (these also match the repository's own test file for
`permissionHelpers`). -/
theorem seed_permission_scenarios :
    (computePermissionState (js "google.com") (js "google.com")
      [js "*://google.com/*"]).effective = Tier.baseOnly ∧
    (computePermissionState (js "google.com") (js "google.com")
      [js "*://google.com/*"]).revokeTarget = some (js "*://google.com/*") ∧
    (computePermissionState (js "mail.google.com") (js "google.com")
      [js "*://mail.google.com/*"]).effective = Tier.none ∧
    (computePermissionState (js "mail.google.com") (js "google.com")
      [js "*://mail.google.com/*"]).grantMissing = [js "*://google.com/*"] ∧
    (computePermissionState (js "mail.google.com") (js "google.com")
      [allUrls]).effective = Tier.global ∧
    (computePermissionState (js "mail.google.com") (js "google.com")
      [allUrls]).revokeTarget = some allUrls := by
  decide

/-- Agreement of the source tree's button-config builder with the
modelled engine: on the site view with non-empty hostname and base
domain, the config's origins are exactly the engine's revoke target when
one exists and its missing-grant list otherwise, and the revoke styling
holds iff the effective tier is not `none`. This grounds the
spec-modelled engine in code that is present under `src/`. -/
theorem buttonConfig_agrees_with_engine (h b : JsStr) (granted : List JsStr)
    (hh : h ≠ []) (hb : b ≠ []) :
    (buildPermissionButtonConfig granted ViewMode.site h b).origins =
      (match (computePermissionState h b granted).revokeTarget with
       | some t => [t]
       | Option.none => (computePermissionState h b granted).grantMissing) ∧
    ((buildPermissionButtonConfig granted ViewMode.site h b).revokeClass = true ↔
      (computePermissionState h b granted).effective ≠ Tier.none) := by
  have hnf : ¬(h = [] ∧ b = []) := fun hc => hh hc.1
  by_cases hbd : h = b ∨ h = js "www." ++ b <;>
    by_cases hg : allUrls ∈ granted <;>
      by_cases hw : wildcardPatternOf b ∈ granted <;>
        by_cases hB : basePatternOf b ∈ granted <;>
          by_cases hH : hostPatternOf h ∈ granted <;>
            simp [buildPermissionButtonConfig, permissionsContains,
              computePermissionState, buildPatterns, isBaseHost, hasPattern,
              if_neg hb, if_neg hh, hnf, hbd, hg, hw, hB, hH]
